import Mathlib

/-!
Verification of the image-inventory pipeline (inventory_from_images.py).

The embedding follows the source: pathlib's suffix, stem and name
operations on the final path component; the extension allow-list
SUPPORTED_EXTS; the file collector (iterdir vs rglob, filter, sorted);
PIL's Image.thumbnail bounding-box resize (exact rational arithmetic in
place of IEEE floats); the per-file worksheet loop with its
exception-per-item recovery; and the top-level control flow of main
(input validation, warning on empty collection, timestamped output path,
final messages). Filesystem contents, decode outcomes and the wall clock
are parameters of the model.
-/

/-- Index of the last occurrence of character c in cs, as Python's
str.rfind (none when absent). -/
def rfindChar (cs : List Char) (c : Char) : Option Nat :=
  match cs.reverse.findIdx? (fun d => d = c) with
  | some j => some (cs.length - 1 - j)
  | none => none

/-- Python pathlib suffix of a final path component: the part from the
last dot on, provided that dot is neither the first nor the last
character; otherwise the empty string. -/
def pySuffix (name : String) : String :=
  let cs := name.data
  match rfindChar cs '.' with
  | some i => if 0 < i ∧ i < cs.length - 1 then String.mk (cs.drop i) else ""
  | none => ""

/-- Python pathlib stem of a final path component: the component with
pySuffix removed. -/
def pyStem (name : String) : String :=
  let cs := name.data
  match rfindChar cs '.' with
  | some i => if 0 < i ∧ i < cs.length - 1 then String.mk (cs.take i) else name
  | none => name

/-- Final component of a slash-separated path (Python pathlib name). -/
def pyBasename (p : String) : String :=
  let cs := p.data
  match cs.reverse.findIdx? (fun d => d = '/') with
  | some j => String.mk (cs.drop (cs.length - j))
  | none => p

/-- Everything up to and including the last slash of a path (empty when
the path has no slash), so that pyDirPart p ++ pyBasename p = p. -/
def pyDirPart (p : String) : String :=
  let cs := p.data
  match cs.reverse.findIdx? (fun d => d = '/') with
  | some j => String.mk (cs.take (cs.length - j))
  | none => ""

/-- Python pathlib with_name: replace the final component of a path. -/
def pyWithName (p newName : String) : String :=
  pyDirPart p ++ newName

/-- Python str.lower, character by character (the extensions compared
are ASCII). -/
def pyLower (s : String) : String :=
  String.mk (s.data.map Char.toLower)

/-- SUPPORTED_EXTS from the source: the extension allow-list. -/
def SUPPORTED_EXTS : List String := [".jpg", ".jpeg", ".png", ".webp"]

/-- The collector's per-path test: p.suffix.lower() in SUPPORTED_EXTS,
where the suffix is taken from the path's final component. -/
def matchesExt (p : String) : Bool :=
  SUPPORTED_EXTS.contains (pyLower (pySuffix (pyBasename p)))

/-- A filesystem entry: a regular file or a directory with children. -/
inductive FSEntry where
  | file (name : String)
  | dir (name : String) (children : List FSEntry)

/-- Name of a filesystem entry. -/
def FSEntry.entryName : FSEntry → String
  | .file n => n
  | .dir n _ => n

/-- Whether a filesystem entry is a regular file. -/
def FSEntry.regular : FSEntry → Bool
  | .file _ => true
  | .dir _ _ => false

mutual

/-- All entries strictly below one entry, the entry itself included,
each as (full path, is-regular-file); this is what rglob enumerates. -/
def descend (pre : String) : FSEntry → List (String × Bool)
  | .file n => [(pre ++ "/" ++ n, true)]
  | .dir n cs => (pre ++ "/" ++ n, false) :: descendList (pre ++ "/" ++ n) cs

/-- rglob-style enumeration of every entry below a directory's children. -/
def descendList (pre : String) : List FSEntry → List (String × Bool)
  | [] => []
  | e :: es => descend pre e ++ descendList pre es

end

/-- iterdir-style enumeration: direct children only, with file flags. -/
def childEntries (pre : String) (cs : List FSEntry) : List (String × Bool) :=
  cs.map (fun e => (pre ++ "/" ++ e.entryName, e.regular))

/-- The raw directory listing the collector draws from: rglob in
recursive mode, iterdir otherwise. -/
def rawListing (recursive : Bool) (input : String) (cs : List FSEntry) :
    List (String × Bool) :=
  if recursive then descendList input cs else childEntries input cs

/-- Lexicographic comparison of two paths by their code points, the
order Python sorted() uses on paths. -/
def pathLe (a b : String) : Prop :=
  a.data ≤ b.data

instance : DecidableRel pathLe :=
  fun a b => inferInstanceAs (Decidable (a.data ≤ b.data))

/-- Embedding of Python sorted() on path strings. -/
def sortPaths (l : List String) : List String :=
  List.insertionSort pathLe l

/-- The file collector of main: filter the raw listing (in non-recursive
mode also requiring is_file, in recursive mode by extension alone, as
the source does), keep the paths, and sort them. -/
def collectFiles (recursive : Bool) (input : String) (cs : List FSEntry) :
    List String :=
  sortPaths (((rawListing recursive input cs).filter
    (fun e => if recursive then matchesExt e.1 else e.2 && matchesExt e.1)).map
    (fun e => e.1))

/-- PIL round_aspect: pick floor or ceil of a rational, whichever the
key prefers (floor on ties, as Python's min), and at least 1. -/
def round_aspect (number : ℚ) (key : ℤ → ℚ) : ℤ :=
  max (if key ⌊number⌋ ≤ key ⌈number⌉ then ⌊number⌋ else ⌈number⌉) 1

/-- Pixel dimensions produced by PIL Image.thumbnail((x, y)) on a source
of the given width and height: unchanged when the image already fits the
box, otherwise the binding dimension is clamped and the other rounded to
best preserve the aspect ratio. -/
def pil_thumbnail (width height x y : ℤ) : ℤ × ℤ :=
  if x ≥ width ∧ y ≥ height then (width, height)
  else if (x : ℚ) / (y : ℚ) ≥ (width : ℚ) / (height : ℚ) then
    (round_aspect ((y : ℚ) * ((width : ℚ) / (height : ℚ)))
      (fun n => |(width : ℚ) / (height : ℚ) - (n : ℚ) / (y : ℚ)|), y)
  else
    (x, round_aspect ((x : ℚ) / ((width : ℚ) / (height : ℚ)))
      (fun n => if n = 0 then 0 else |(width : ℚ) / (height : ℚ) - (x : ℚ) / (n : ℚ)|))

/-- Row height assigned on the success path: max(80, thumb_size * 0.75). -/
def rowHeightFor (thumbSize : ℤ) : ℚ :=
  max 80 ((thumbSize : ℚ) * (3 / 4))

/-- Text written to column B for one file: the stem on success, the
error placeholder on failure. -/
def cellTextFor (p : String) (oc : Option (ℤ × ℤ)) : String :=
  match oc with
  | some _ => pyStem (pyBasename p)
  | none => "[ERROR reading image] " ++ pyBasename p

/-- Worksheet state built by the loop of main: the next row index, the
column-B cells, the embedded images (with thumbnail dimensions) and the
row heights that were explicitly set. -/
structure RowsState where
  row : ℕ
  cells : List (ℕ × String)
  imgs : List (ℕ × ℤ × ℤ)
  heights : List (ℕ × ℚ)

/-- One iteration of the loop of main: on a successful decode the
thumbnail is embedded, the row height set and the stem written; on any
failure only the placeholder text is written. Either way the row index
advances by one. -/
def processFile (thumbSize : ℤ) (oc : String → Option (ℤ × ℤ))
    (st : RowsState) (p : String) : RowsState :=
  match oc p with
  | some wh =>
    { row := st.row + 1
      cells := st.cells ++ [(st.row, pyStem (pyBasename p))]
      imgs := st.imgs ++ [(st.row, pil_thumbnail wh.1 wh.2 thumbSize thumbSize)]
      heights := st.heights ++ [(st.row, rowHeightFor thumbSize)] }
  | none =>
    { row := st.row + 1
      cells := st.cells ++ [(st.row, "[ERROR reading image] " ++ pyBasename p)]
      imgs := st.imgs
      heights := st.heights }

/-- The loop of main run from a given state. -/
def runFrom (thumbSize : ℤ) (oc : String → Option (ℤ × ℤ)) :
    RowsState → List String → RowsState
  | st, [] => st
  | st, p :: ps => runFrom thumbSize oc (processFile thumbSize oc st p) ps

/-- The loop of main over the collected files, starting at row 2. -/
def runLoop (thumbSize : ℤ) (oc : String → Option (ℤ × ℤ))
    (files : List String) : RowsState :=
  runFrom thumbSize oc { row := 2, cells := [], imgs := [], heights := [] } files

/-- Command-line arguments of the program. -/
structure Args where
  input : String
  output : String
  thumbSize : ℤ
  timestamped : Bool
  recursive : Bool

/-- A wall-clock instant, as consumed by strftime. -/
structure Timestamp where
  year : ℕ
  month : ℕ
  day : ℕ
  hour : ℕ
  minute : ℕ
  second : ℕ

/-- Zero-pad a number to two digits, as strftime's two-digit fields. -/
def pad2 (n : ℕ) : String :=
  if n < 10 then "0" ++ toString n else toString n

/-- Zero-pad a number to four digits, as strftime's year field. -/
def pad4 (n : ℕ) : String :=
  if n < 10 then "000" ++ toString n
  else if n < 100 then "00" ++ toString n
  else if n < 1000 then "0" ++ toString n
  else toString n

/-- strftime with format YYYYMMDD_HHMMSS. -/
def fmtTS (t : Timestamp) : String :=
  pad4 t.year ++ pad2 t.month ++ pad2 t.day ++ "_" ++
    pad2 t.hour ++ pad2 t.minute ++ pad2 t.second

/-- Output-path resolution of main: with the timestamped flag the
timestamp is inserted between the output name's stem and its suffix. -/
def resolvedOutPath (a : Args) (now : Timestamp) : String :=
  if a.timestamped then
    pyWithName a.output
      (pyStem (pyBasename a.output) ++ "_" ++ fmtTS now ++ pySuffix (pyBasename a.output))
  else a.output

/-- The observable world the program runs against: whether the input
path exists and is a directory, the directory tree below it, the decode
outcome of each path (dimensions, or none for any per-file failure at
open time), and the current wall-clock time. -/
structure World where
  inputExists : Bool
  inputIsDir : Bool
  entries : List FSEntry
  decodeResult : String → Option (ℤ × ℤ)
  now : Timestamp

/-- The produced workbook: sheet title, header cells, freeze pane,
column widths and the body built by the loop. -/
structure Document where
  sheetTitle : String
  headerA : String
  headerB : String
  freezePanes : String
  widthA : ℕ
  widthB : ℕ
  body : RowsState

/-- Observable outcome of one program run: exit code, console output,
and the file that was written, if any. -/
structure RunOutcome where
  exitCode : ℕ
  stderrLines : List String
  stdoutLines : List String
  written : Option (String × Document)

/-- Top-level control flow of main: validate the input directory (fatal
exit 1 before anything is written), collect files, warn when none match,
build the worksheet, resolve the output path and write exactly once. -/
def mainRun (a : Args) (w : World) : RunOutcome :=
  if !w.inputExists || !w.inputIsDir then
    { exitCode := 1
      stderrLines := ["ERROR: Input folder not found or not a directory: " ++ a.input]
      stdoutLines := []
      written := none }
  else
    let files := collectFiles a.recursive a.input w.entries
    let warns := if files.isEmpty
      then ["WARNING: No supported image files found in: " ++ a.input] else []
    let body := runLoop a.thumbSize w.decodeResult files
    let outp := resolvedOutPath a w.now
    { exitCode := 0
      stderrLines := warns
      stdoutLines := ["Excel created: " ++ outp,
        "Images processed: " ++ toString files.length]
      written := some (outp,
        { sheetTitle := "Inventory"
          headerA := "Photo"
          headerB := "Temporary Name"
          freezePanes := "A2"
          widthA := 18
          widthB := 40
          body := body }) }

/-- Column-B cells the loop produces for a list of files, first row r. -/
def cellsFor (oc : String → Option (ℤ × ℤ)) (r : ℕ) : List String → List (ℕ × String)
  | [] => []
  | p :: ps => (r, cellTextFor p (oc p)) :: cellsFor oc (r + 1) ps

/-- Embedded images the loop produces for a list of files, first row r. -/
def imgsFor (thumbSize : ℤ) (oc : String → Option (ℤ × ℤ)) (r : ℕ) :
    List String → List (ℕ × ℤ × ℤ)
  | [] => []
  | p :: ps =>
    match oc p with
    | some wh => (r, pil_thumbnail wh.1 wh.2 thumbSize thumbSize) ::
        imgsFor thumbSize oc (r + 1) ps
    | none => imgsFor thumbSize oc (r + 1) ps

/-- Row heights the loop sets for a list of files, first row r. -/
def heightsFor (thumbSize : ℤ) (oc : String → Option (ℤ × ℤ)) (r : ℕ) :
    List String → List (ℕ × ℚ)
  | [] => []
  | p :: ps =>
    match oc p with
    | some _ => (r, rowHeightFor thumbSize) :: heightsFor thumbSize oc (r + 1) ps
    | none => heightsFor thumbSize oc (r + 1) ps

/-- Decode oracle for concrete runs: every file fails to open. -/
def ocFail : String → Option (ℤ × ℤ) := fun _ => none

/-- Decode oracle for concrete runs: every file decodes as 200 x 100. -/
def ocOk : String → Option (ℤ × ℤ) := fun _ => some (200, 100)

/-- A concrete tree holding a single directory whose name carries a
supported image extension. -/
def fsDirNamedJpg : List FSEntry := [.dir "box.jpg" []]

/-- A concrete world whose input directory exists, is a directory and is
empty. -/
def emptyWorld : World :=
  { inputExists := true
    inputIsDir := true
    entries := []
    decodeResult := ocFail
    now := ⟨2026, 10, 12, 9, 5, 3⟩ }

/-- A concrete world whose input path is missing. -/
def missingWorld : World :=
  { inputExists := false
    inputIsDir := false
    entries := []
    decodeResult := ocFail
    now := ⟨2026, 10, 12, 9, 5, 3⟩ }

/-- Concrete default-style arguments for witness runs. -/
def argsPlain : Args :=
  { input := "images"
    output := "inventory_audit.xlsx"
    thumbSize := 100
    timestamped := false
    recursive := false }

/-- Concrete arguments with the timestamped flag set. -/
def argsStamped : Args :=
  { input := "images"
    output := "out/inventory_audit.xlsx"
    thumbSize := 100
    timestamped := true
    recursive := false }

theorem runFrom_spec (thumbSize : ℤ) (oc : String → Option (ℤ × ℤ)) :
    ∀ (files : List String) (st : RowsState),
    runFrom thumbSize oc st files =
      { row := st.row + files.length
        cells := st.cells ++ cellsFor oc st.row files
        imgs := st.imgs ++ imgsFor thumbSize oc st.row files
        heights := st.heights ++ heightsFor thumbSize oc st.row files } := by
  intro files
  induction files with
  | nil => intro st; simp [runFrom, cellsFor, imgsFor, heightsFor]
  | cons p ps ih =>
    intro st
    rw [runFrom, ih]
    cases hoc : oc p with
    | some wh =>
      simp only [processFile, hoc, cellsFor, imgsFor, heightsFor, List.length_cons,
        RowsState.mk.injEq]
      refine ⟨by omega, ?_, ?_, ?_⟩ <;>
        simp [cellTextFor, hoc, List.append_assoc]
    | none =>
      simp only [processFile, hoc, cellsFor, imgsFor, heightsFor, List.length_cons,
        RowsState.mk.injEq]
      refine ⟨by omega, ?_, ?_, ?_⟩ <;>
        simp [cellTextFor, hoc, List.append_assoc]

theorem runLoop_cells (thumbSize : ℤ) (oc : String → Option (ℤ × ℤ))
    (files : List String) :
    (runLoop thumbSize oc files).cells = cellsFor oc 2 files := by
  rw [runLoop, runFrom_spec]; rfl

theorem runLoop_imgs (thumbSize : ℤ) (oc : String → Option (ℤ × ℤ))
    (files : List String) :
    (runLoop thumbSize oc files).imgs = imgsFor thumbSize oc 2 files := by
  rw [runLoop, runFrom_spec]; rfl

theorem runLoop_heights (thumbSize : ℤ) (oc : String → Option (ℤ × ℤ))
    (files : List String) :
    (runLoop thumbSize oc files).heights = heightsFor thumbSize oc 2 files := by
  rw [runLoop, runFrom_spec]; rfl

theorem runLoop_row (thumbSize : ℤ) (oc : String → Option (ℤ × ℤ))
    (files : List String) :
    (runLoop thumbSize oc files).row = 2 + files.length := by
  rw [runLoop, runFrom_spec]

theorem cellsFor_length (oc : String → Option (ℤ × ℤ)) :
    ∀ (files : List String) (r : ℕ), (cellsFor oc r files).length = files.length := by
  intro files
  induction files with
  | nil => intro r; rfl
  | cons p ps ih => intro r; simp [cellsFor, ih]

theorem cellsFor_map_fst (oc : String → Option (ℤ × ℤ)) :
    ∀ (files : List String) (r : ℕ),
    (cellsFor oc r files).map Prod.fst = List.range' r files.length := by
  intro files
  induction files with
  | nil => intro r; rfl
  | cons p ps ih => intro r; simp [cellsFor, ih, List.range'_succ]

theorem cellsFor_getElem (oc : String → Option (ℤ × ℤ)) :
    ∀ (files : List String) (r i : ℕ), ∀ hi : i < files.length,
    (cellsFor oc r files)[i]? = some (r + i, cellTextFor files[i] (oc files[i])) := by
  intro files
  induction files with
  | nil => intro r i hi; exact absurd hi (by simp)
  | cons p ps ih =>
    intro r i hi
    cases i with
    | zero => simp [cellsFor]
    | succ j =>
      have hj : j < ps.length := by simpa using hi
      have harith : r + 1 + j = r + (j + 1) := by omega
      simp only [cellsFor, List.getElem?_cons_succ, List.getElem_cons_succ]
      rw [ih (r + 1) j hj, harith]

theorem imgsFor_rows (thumbSize : ℤ) (oc : String → Option (ℤ × ℤ)) :
    ∀ (files : List String) (r : ℕ) (e : ℕ × ℤ × ℤ),
    e ∈ imgsFor thumbSize oc r files →
    ∃ j, ∃ hj : j < files.length, e.1 = r + j ∧ (oc files[j]).isSome = true := by
  intro files
  induction files with
  | nil => intro r e he; exact absurd he (by simp [imgsFor])
  | cons p ps ih =>
    intro r e he
    cases hoc : oc p with
    | some wh =>
      rw [imgsFor, hoc] at he
      rcases List.mem_cons.mp he with he0 | he1
      · exact ⟨0, by simp, by simp [he0], by simp [hoc]⟩
      · rcases ih (r + 1) e he1 with ⟨j, hj, hrow, hsome⟩
        exact ⟨j + 1, Nat.succ_lt_succ hj, by omega, by simpa using hsome⟩
    | none =>
      rw [imgsFor, hoc] at he
      rcases ih (r + 1) e he with ⟨j, hj, hrow, hsome⟩
      exact ⟨j + 1, Nat.succ_lt_succ hj, by omega, by simpa using hsome⟩

theorem heightsFor_rows (thumbSize : ℤ) (oc : String → Option (ℤ × ℤ)) :
    ∀ (files : List String) (r : ℕ) (e : ℕ × ℚ),
    e ∈ heightsFor thumbSize oc r files →
    ∃ j, ∃ hj : j < files.length, e.1 = r + j ∧ (oc files[j]).isSome = true ∧
      e.2 = rowHeightFor thumbSize := by
  intro files
  induction files with
  | nil => intro r e he; exact absurd he (by simp [heightsFor])
  | cons p ps ih =>
    intro r e he
    cases hoc : oc p with
    | some wh =>
      rw [heightsFor, hoc] at he
      rcases List.mem_cons.mp he with he0 | he1
      · exact ⟨0, by simp, by simp [he0], by simp [hoc], by simp [he0]⟩
      · rcases ih (r + 1) e he1 with ⟨j, hj, hrow, hsome, hval⟩
        exact ⟨j + 1, Nat.succ_lt_succ hj, by omega, by simpa using hsome, hval⟩
    | none =>
      rw [heightsFor, hoc] at he
      rcases ih (r + 1) e he with ⟨j, hj, hrow, hsome, hval⟩
      exact ⟨j + 1, Nat.succ_lt_succ hj, by omega, by simpa using hsome, hval⟩

theorem heightsFor_mem (thumbSize : ℤ) (oc : String → Option (ℤ × ℤ)) :
    ∀ (files : List String) (r i : ℕ), ∀ hi : i < files.length,
    (oc files[i]).isSome = true →
    (r + i, rowHeightFor thumbSize) ∈ heightsFor thumbSize oc r files := by
  intro files
  induction files with
  | nil => intro r i hi; exact absurd hi (by simp)
  | cons p ps ih =>
    intro r i hi hsome
    cases i with
    | zero =>
      simp only [List.getElem_cons_zero] at hsome
      rcases Option.isSome_iff_exists.mp hsome with ⟨wh, hwh⟩
      simp [heightsFor, hwh]
    | succ j =>
      have hj : j < ps.length := by simpa using hi
      have hmem := ih (r + 1) j hj (by simpa using hsome)
      have harith : r + (j + 1) = r + 1 + j := by omega
      rw [harith]
      cases hoc : oc p with
      | some wh => rw [heightsFor, hoc]; exact List.mem_cons_of_mem _ hmem
      | none => rw [heightsFor, hoc]; exact hmem

/-- C1: every collected file yields exactly one data row, in collection
order; the row index starts at 2 and advances by exactly one per file
whether the file succeeds or fails, so the produced document holds the
header row plus exactly one data row per collected file. -/
theorem one_row_per_file (thumbSize : ℤ) (oc : String → Option (ℤ × ℤ))
    (files : List String) :
    (runLoop thumbSize oc files).row = 2 + files.length ∧
    (runLoop thumbSize oc files).cells.length = files.length ∧
    (runLoop thumbSize oc files).cells.map Prod.fst = List.range' 2 files.length := by
  refine ⟨runLoop_row thumbSize oc files, ?_, ?_⟩
  · rw [runLoop_cells]; exact cellsFor_length oc files 2
  · rw [runLoop_cells]; exact cellsFor_map_fst oc files 2

/-- C3: a file whose processing raises an error does not abort the
pipeline: its row carries exactly the text ERROR-reading-image followed
by the original file name, no image is anchored at its row, and every
row of the document holds exactly the content determined by its own file
and outcome, unaffected by the failure. -/
theorem error_row_isolated (thumbSize : ℤ) (oc : String → Option (ℤ × ℤ))
    (files : List String) (i : ℕ) (hi : i < files.length)
    (he : oc files[i] = none) :
    (runLoop thumbSize oc files).cells[i]? =
      some (2 + i, "[ERROR reading image] " ++ pyBasename files[i]) ∧
    (∀ e ∈ (runLoop thumbSize oc files).imgs, e.1 ≠ 2 + i) ∧
    (∀ j, ∀ hj : j < files.length,
      (runLoop thumbSize oc files).cells[j]? =
        some (2 + j, cellTextFor files[j] (oc files[j]))) := by
  refine ⟨?_, ?_, fun j hj => ?_⟩
  · rw [runLoop_cells, cellsFor_getElem oc files 2 i hi]
    simp [cellTextFor, he]
  · intro e hmem hcontra
    rw [runLoop_imgs] at hmem
    rcases imgsFor_rows thumbSize oc files 2 e hmem with ⟨j, hj, hrow, hsome⟩
    have hij : j = i := by omega
    subst hij
    rw [he] at hsome
    simp at hsome
  · rw [runLoop_cells, cellsFor_getElem oc files 2 j hj]

theorem error_row_isolated_witness :
    (runLoop 100 ocFail ["images/bad.jpg"]).cells[0]? =
      some (2 + 0, "[ERROR reading image] " ++ pyBasename (["images/bad.jpg"][0])) ∧
    (∀ e ∈ (runLoop 100 ocFail ["images/bad.jpg"]).imgs, e.1 ≠ 2 + 0) ∧
    (∀ j, ∀ hj : j < (["images/bad.jpg"] : List String).length,
      (runLoop 100 ocFail ["images/bad.jpg"]).cells[j]? =
        some (2 + j, cellTextFor (["images/bad.jpg"][j]) (ocFail (["images/bad.jpg"][j])))) :=
  error_row_isolated 100 ocFail ["images/bad.jpg"] 0 (by decide) rfl

/-- C5 counterexample: with thumb size 100, one file that fails to open
produces a data row at spreadsheet row 2, yet no row height is set at
all — the height assignment sits before the exception handler, so the
claimed height for error placeholder rows is never applied. -/
theorem height_missing_on_error_row :
    (runLoop 100 ocFail ["images/bad.jpg"]).cells.map Prod.fst = [2] ∧
    (runLoop 100 ocFail ["images/bad.jpg"]).heights = [] := by
  exact ⟨rfl, rfl⟩

/-- C5 amended: every row height the document sets equals
max(80, 0.75 x thumb_size), and it is set exactly for the successful
rows — a row whose file fails to decode (the failure occurs before the
height assignment) is left without an explicit height. -/
theorem row_height_success_only (thumbSize : ℤ) (oc : String → Option (ℤ × ℤ))
    (files : List String) (i : ℕ) (hi : i < files.length) :
    (∀ e ∈ (runLoop thumbSize oc files).heights,
      e.2 = max 80 ((thumbSize : ℚ) * (3 / 4))) ∧
    ((oc files[i]).isSome = true →
      (2 + i, rowHeightFor thumbSize) ∈ (runLoop thumbSize oc files).heights) ∧
    (oc files[i] = none →
      ∀ e ∈ (runLoop thumbSize oc files).heights, e.1 ≠ 2 + i) := by
  refine ⟨?_, ?_, ?_⟩
  · intro e hmem
    rw [runLoop_heights] at hmem
    rcases heightsFor_rows thumbSize oc files 2 e hmem with ⟨j, hj, hrow, hsome, hval⟩
    rw [hval]; rfl
  · intro hsome
    rw [runLoop_heights]
    exact heightsFor_mem thumbSize oc files 2 i hi hsome
  · intro hnone e hmem hcontra
    rw [runLoop_heights] at hmem
    rcases heightsFor_rows thumbSize oc files 2 e hmem with ⟨j, hj, hrow, hsome, hval⟩
    have hij : j = i := by omega
    subst hij
    rw [hnone] at hsome
    simp at hsome

theorem row_height_success_only_witness :
    (∀ e ∈ (runLoop 100 ocOk ["images/a.jpg"]).heights,
      e.2 = max 80 ((100 : ℚ) * (3 / 4))) ∧
    ((ocOk (["images/a.jpg"][0])).isSome = true →
      (2 + 0, rowHeightFor 100) ∈ (runLoop 100 ocOk ["images/a.jpg"]).heights) ∧
    (ocOk (["images/a.jpg"][0]) = none →
      ∀ e ∈ (runLoop 100 ocOk ["images/a.jpg"]).heights, e.1 ≠ 2 + 0) :=
  row_height_success_only 100 ocOk ["images/a.jpg"] 0 (by decide)

theorem one_le_round_aspect (number : ℚ) (key : ℤ → ℚ) :
    1 ≤ round_aspect number key :=
  le_max_right _ _

theorem round_aspect_le (number : ℚ) (key : ℤ → ℚ) {m : ℤ}
    (hle : number ≤ (m : ℚ)) (hm : 1 ≤ m) : round_aspect number key ≤ m := by
  have hc : ⌈number⌉ ≤ m := Int.ceil_le.mpr hle
  have hf : ⌊number⌋ ≤ m := le_trans (Int.floor_le_ceil number) hc
  unfold round_aspect
  apply max_le _ hm
  split <;> assumption

theorem round_aspect_close (number : ℚ) (key : ℤ → ℚ) (hpos : 0 < number) :
    |(round_aspect number key : ℚ) - number| ≤ 1 := by
  have hfl : |(⌊number⌋ : ℚ) - number| ≤ 1 := by
    rw [abs_le]
    constructor
    · have := Int.sub_one_lt_floor number
      linarith
    · have := Int.floor_le number
      linarith
  have hcl : |(⌈number⌉ : ℚ) - number| ≤ 1 := by
    rw [abs_le]
    constructor
    · have := Int.le_ceil number
      linarith
    · have := Int.ceil_lt_add_one number
      linarith
  have hceil1 : (1 : ℤ) ≤ ⌈number⌉ := by
    have := Int.ceil_pos.mpr hpos
    omega
  have hchoice : round_aspect number key = max ⌊number⌋ 1 ∨
      round_aspect number key = max ⌈number⌉ 1 := by
    unfold round_aspect
    split
    · exact Or.inl rfl
    · exact Or.inr rfl
  rcases hchoice with hch | hch <;> rw [hch]
  · rcases le_total 1 ⌊number⌋ with h1 | h1
    · rw [max_eq_left h1]
      exact hfl
    · rw [max_eq_right h1]
      have hlt : number < (⌊number⌋ : ℚ) + 1 := Int.lt_floor_add_one number
      have h1q : (⌊number⌋ : ℚ) ≤ 1 := by exact_mod_cast h1
      rw [abs_le]
      push_cast
      constructor <;> linarith
  · rw [max_eq_left hceil1]
    exact hcl

set_option maxHeartbeats 800000 in
/-- C4: for positive source dimensions and a positive configured thumb
size, the thumbnail produced by the loop never exceeds the bounding box
on either axis, is at least one pixel on each axis, leaves an image that
already fits the box untouched (no upscaling), and preserves the aspect
ratio within one pixel of rounding on the adjusted axis. -/
theorem thumbnail_bounds (w h s : ℤ) (hw : 1 ≤ w) (hh : 1 ≤ h) (hs : 1 ≤ s) :
    (pil_thumbnail w h s s).1 ≤ s ∧ (pil_thumbnail w h s s).2 ≤ s ∧
    1 ≤ (pil_thumbnail w h s s).1 ∧ 1 ≤ (pil_thumbnail w h s s).2 ∧
    (w ≤ s ∧ h ≤ s → pil_thumbnail w h s s = (w, h)) ∧
    |((pil_thumbnail w h s s).1 : ℚ) * (h : ℚ) -
        ((pil_thumbnail w h s s).2 : ℚ) * (w : ℚ)| ≤ max (w : ℚ) (h : ℚ) := by
  have hw0 : (0 : ℚ) < (w : ℚ) := by exact_mod_cast lt_of_lt_of_le Int.zero_lt_one hw
  have hh0 : (0 : ℚ) < (h : ℚ) := by exact_mod_cast lt_of_lt_of_le Int.zero_lt_one hh
  have hs0 : (0 : ℚ) < (s : ℚ) := by exact_mod_cast lt_of_lt_of_le Int.zero_lt_one hs
  have hdiv : (s : ℚ) / (s : ℚ) = 1 := div_self (ne_of_gt hs0)
  by_cases hfit : s ≥ w ∧ s ≥ h
  · rw [pil_thumbnail, if_pos hfit]
    refine ⟨hfit.1, hfit.2, hw, hh, fun _ => rfl, ?_⟩
    have hzero : (w : ℚ) * (h : ℚ) - (h : ℚ) * (w : ℚ) = 0 := by ring
    rw [hzero, abs_zero]
    exact le_trans (le_of_lt hw0) (le_max_left _ _)
  · rw [pil_thumbnail, if_neg hfit]
    by_cases hbr : (s : ℚ) / (s : ℚ) ≥ (w : ℚ) / (h : ℚ)
    · rw [if_pos hbr]
      have haspect1 : (w : ℚ) / (h : ℚ) ≤ 1 := by rwa [hdiv] at hbr
      have he_pos : 0 < (s : ℚ) * ((w : ℚ) / (h : ℚ)) :=
        mul_pos hs0 (div_pos hw0 hh0)
      have he_le : (s : ℚ) * ((w : ℚ) / (h : ℚ)) ≤ (s : ℚ) := by
        have := mul_le_mul_of_nonneg_left haspect1 (le_of_lt hs0)
        simpa using this
      refine ⟨round_aspect_le ((s : ℚ) * ((w : ℚ) / (h : ℚ)))
          (fun n => |(w : ℚ) / (h : ℚ) - (n : ℚ) / (s : ℚ)|) he_le hs,
        le_refl s,
        one_le_round_aspect ((s : ℚ) * ((w : ℚ) / (h : ℚ)))
          (fun n => |(w : ℚ) / (h : ℚ) - (n : ℚ) / (s : ℚ)|),
        hs,
        fun hcon => absurd ⟨hcon.1, hcon.2⟩ hfit, ?_⟩
      have hkey : (s : ℚ) * ((w : ℚ) / (h : ℚ)) * (h : ℚ) = (s : ℚ) * (w : ℚ) := by
        field_simp
      have hclose := round_aspect_close ((s : ℚ) * ((w : ℚ) / (h : ℚ)))
        (fun n => |(w : ℚ) / (h : ℚ) - (n : ℚ) / (s : ℚ)|) he_pos
      calc |((round_aspect ((s : ℚ) * ((w : ℚ) / (h : ℚ)))
              (fun n => |(w : ℚ) / (h : ℚ) - (n : ℚ) / (s : ℚ)|) : ℤ) : ℚ) * (h : ℚ) -
            (s : ℚ) * (w : ℚ)|
          = |(((round_aspect ((s : ℚ) * ((w : ℚ) / (h : ℚ)))
              (fun n => |(w : ℚ) / (h : ℚ) - (n : ℚ) / (s : ℚ)|) : ℤ) : ℚ) -
              (s : ℚ) * ((w : ℚ) / (h : ℚ))) * (h : ℚ)| := by
            rw [sub_mul, hkey]
        _ ≤ 1 * |(h : ℚ)| := by
            rw [abs_mul]
            exact mul_le_mul_of_nonneg_right hclose (abs_nonneg _)
        _ = (h : ℚ) := by rw [one_mul, abs_of_pos hh0]
        _ ≤ max (w : ℚ) (h : ℚ) := le_max_right _ _
    · rw [if_neg hbr]
      have haspect1 : 1 < (w : ℚ) / (h : ℚ) := by
        push_neg at hbr
        rwa [hdiv] at hbr
      have haspect0 : (0 : ℚ) < (w : ℚ) / (h : ℚ) := div_pos hw0 hh0
      have he_pos : 0 < (s : ℚ) / ((w : ℚ) / (h : ℚ)) := div_pos hs0 haspect0
      have he_le : (s : ℚ) / ((w : ℚ) / (h : ℚ)) ≤ (s : ℚ) :=
        div_le_self (le_of_lt hs0) (le_of_lt haspect1)
      refine ⟨le_refl s,
        round_aspect_le ((s : ℚ) / ((w : ℚ) / (h : ℚ)))
          (fun n => if n = 0 then 0 else |(w : ℚ) / (h : ℚ) - (s : ℚ) / (n : ℚ)|)
          he_le hs,
        hs,
        one_le_round_aspect ((s : ℚ) / ((w : ℚ) / (h : ℚ)))
          (fun n => if n = 0 then 0 else |(w : ℚ) / (h : ℚ) - (s : ℚ) / (n : ℚ)|),
        fun hcon => absurd ⟨hcon.1, hcon.2⟩ hfit, ?_⟩
      have hkey : (s : ℚ) / ((w : ℚ) / (h : ℚ)) * (w : ℚ) = (s : ℚ) * (h : ℚ) := by
        rw [div_div_eq_mul_div, div_mul_eq_mul_div, mul_comm (s : ℚ) (h : ℚ),
          mul_div_assoc, div_self (ne_of_gt hw0), mul_one, mul_comm]
      have hclose := round_aspect_close ((s : ℚ) / ((w : ℚ) / (h : ℚ)))
        (fun n => if n = 0 then 0 else |(w : ℚ) / (h : ℚ) - (s : ℚ) / (n : ℚ)|) he_pos
      calc |(s : ℚ) * (h : ℚ) -
            ((round_aspect ((s : ℚ) / ((w : ℚ) / (h : ℚ)))
              (fun n => if n = 0 then 0 else
                |(w : ℚ) / (h : ℚ) - (s : ℚ) / (n : ℚ)|) : ℤ) : ℚ) * (w : ℚ)|
          = |((s : ℚ) / ((w : ℚ) / (h : ℚ)) -
              ((round_aspect ((s : ℚ) / ((w : ℚ) / (h : ℚ)))
                (fun n => if n = 0 then 0 else
                  |(w : ℚ) / (h : ℚ) - (s : ℚ) / (n : ℚ)|) : ℤ) : ℚ)) * (w : ℚ)| := by
            rw [sub_mul, hkey]
        _ ≤ 1 * |(w : ℚ)| := by
            rw [abs_mul, abs_sub_comm]
            exact mul_le_mul_of_nonneg_right hclose (abs_nonneg _)
        _ = (w : ℚ) := by rw [one_mul, abs_of_pos hw0]
        _ ≤ max (w : ℚ) (h : ℚ) := le_max_left _ _

theorem thumbnail_bounds_witness :
    (pil_thumbnail 4 2 3 3).1 ≤ 3 ∧ (pil_thumbnail 4 2 3 3).2 ≤ 3 ∧
    1 ≤ (pil_thumbnail 4 2 3 3).1 ∧ 1 ≤ (pil_thumbnail 4 2 3 3).2 ∧
    ((4 : ℤ) ≤ 3 ∧ (2 : ℤ) ≤ 3 → pil_thumbnail 4 2 3 3 = (4, 2)) ∧
    |((pil_thumbnail 4 2 3 3).1 : ℚ) * ((2 : ℤ) : ℚ) -
        ((pil_thumbnail 4 2 3 3).2 : ℚ) * ((4 : ℤ) : ℚ)| ≤
      max ((4 : ℤ) : ℚ) ((2 : ℤ) : ℚ) :=
  thumbnail_bounds 4 2 3 (by decide) (by decide) (by decide)

instance : IsTotal String pathLe :=
  ⟨fun a b => le_total a.data b.data⟩

instance : IsTrans String pathLe :=
  ⟨fun _ _ _ hab hbc => le_trans hab hbc⟩

instance : IsAntisymm String pathLe := by
  refine ⟨fun a b hab hba => ?_⟩
  have hd : a.data = b.data := le_antisymm hab hba
  cases a
  cases b
  exact congrArg String.mk hd

theorem sortPaths_sorted (l : List String) : List.Sorted pathLe (sortPaths l) :=
  List.sorted_insertionSort pathLe l

theorem sortPaths_perm (l : List String) : (sortPaths l).Perm l :=
  List.perm_insertionSort pathLe l

theorem sortPaths_eq_of_perm (l₁ l₂ : List String) (hp : l₁.Perm l₂) :
    sortPaths l₁ = sortPaths l₂ :=
  List.eq_of_perm_of_sorted
    ((sortPaths_perm l₁).trans (hp.trans (sortPaths_perm l₂).symm))
    (sortPaths_sorted l₁) (sortPaths_sorted l₂)

theorem mem_collectFiles (r : Bool) (input : String) (cs : List FSEntry) (p : String) :
    p ∈ collectFiles r input cs ↔
    ∃ b, (p, b) ∈ rawListing r input cs ∧
      (if r then matchesExt p else b && matchesExt p) = true := by
  unfold collectFiles
  rw [(sortPaths_perm _).mem_iff]
  simp only [List.mem_map, List.mem_filter]
  constructor
  · rintro ⟨⟨q, b⟩, ⟨hmem, hf⟩, rfl⟩
    exact ⟨b, hmem, hf⟩
  · rintro ⟨b, hmem, hf⟩
    exact ⟨(p, b), ⟨hmem, hf⟩, rfl⟩

/-- C2 counterexample: in recursive mode a directory whose name ends in
a supported image extension is collected even though it is not a regular
file — the rglob branch filters by suffix alone. Concretely, below the
input directory there is exactly one entry, the directory box.jpg (its
file flag is false), and the collector returns its path. -/
theorem recursive_collects_directory :
    collectFiles true "images" fsDirNamedJpg = ["images/box.jpg"] ∧
    descendList "images" fsDirNamedJpg = [("images/box.jpg", false)] := by
  exact ⟨by decide, by decide⟩

/-- C2 (amended): for every existing input directory the collector
returns exactly the paths whose lower-cased final extension is in the
supported set — in non-recursive mode only direct children that are
regular files, but in recursive mode every entry at any depth, whether
file or directory — and the result is sorted lexicographically. -/
theorem collector_contract (input : String) (cs : List FSEntry) (p : String) :
    (p ∈ collectFiles false input cs ↔
      ((p, true) ∈ childEntries input cs ∧ matchesExt p = true)) ∧
    (p ∈ collectFiles true input cs ↔
      ((∃ b, (p, b) ∈ descendList input cs) ∧ matchesExt p = true)) ∧
    List.Sorted pathLe (collectFiles false input cs) ∧
    List.Sorted pathLe (collectFiles true input cs) := by
  refine ⟨?_, ?_, sortPaths_sorted _, sortPaths_sorted _⟩
  · rw [mem_collectFiles]
    simp only [rawListing, if_neg Bool.false_ne_true, Bool.and_eq_true]
    constructor
    · rintro ⟨b, hmem, hb, hm⟩
      rw [hb] at hmem
      exact ⟨hmem, hm⟩
    · rintro ⟨hmem, hm⟩
      exact ⟨true, hmem, rfl, hm⟩
  · rw [mem_collectFiles]
    simp only [rawListing, if_pos rfl]
    constructor
    · rintro ⟨b, hmem, hm⟩
      exact ⟨⟨b, hmem⟩, hm⟩
    · rintro ⟨⟨b, hmem⟩, hm⟩
      exact ⟨b, hmem, hm⟩

/-- C8: the collected list is sorted in the lexicographic path order, and
it is a function of the set of entries the directory walk reports: any
two walks that enumerate the same entries in any order collect the same
list, so repeated runs over an unchanged directory produce identical row
names and row order. -/
theorem deterministic_order (r : Bool) (input : String) (cs₁ cs₂ : List FSEntry)
    (hperm : (rawListing r input cs₁).Perm (rawListing r input cs₂)) :
    collectFiles r input cs₁ = collectFiles r input cs₂ ∧
    List.Sorted pathLe (collectFiles r input cs₁) := by
  constructor
  · unfold collectFiles
    exact sortPaths_eq_of_perm _ _ ((hperm.filter _).map _)
  · rw [collectFiles]
    exact sortPaths_sorted _

theorem deterministic_order_witness :
    collectFiles false "images" [.file "a.jpg", .file "b.png"] =
      collectFiles false "images" [.file "b.png", .file "a.jpg"] ∧
    List.Sorted pathLe (collectFiles false "images" [.file "a.jpg", .file "b.png"]) :=
  deterministic_order false "images" [.file "a.jpg", .file "b.png"]
    [.file "b.png", .file "a.jpg"] (by decide)

/-- C10: a file whose entire name is a dot followed by a supported
extension has an empty pathlib suffix, so it never passes the extension
filter and is never collected in either mode; a multi-dotted name such
as photo.v2.jpg is collected, and the derived temporary name strips only
the final extension, yielding photo.v2. -/
theorem dotted_name_behavior :
    (∀ r input cs p, p ∈ collectFiles r input cs → matchesExt p = true) ∧
    (∀ r input cs p, p ∈ collectFiles r input cs →
      pyBasename p ≠ ".jpg" ∧ pyBasename p ≠ ".jpeg" ∧
      pyBasename p ≠ ".png" ∧ pyBasename p ≠ ".webp") ∧
    collectFiles false "images" [.file ".png"] = [] ∧
    collectFiles true "images" [.file ".png"] = [] ∧
    collectFiles false "images" [.file ".jpg"] = [] ∧
    collectFiles false "images" [.file "photo.v2.jpg"] = ["images/photo.v2.jpg"] ∧
    pyStem "photo.v2.jpg" = "photo.v2" ∧
    cellTextFor "images/photo.v2.jpg" (some (200, 100)) = "photo.v2" := by
  have hmatch : ∀ r input cs p, p ∈ collectFiles r input cs → matchesExt p = true := by
    intro r input cs p hmem
    rcases (mem_collectFiles r input cs p).mp hmem with ⟨b, _, hf⟩
    cases r
    · simp only [if_neg Bool.false_ne_true, Bool.and_eq_true] at hf
      exact hf.2
    · simpa using hf
  refine ⟨hmatch, ?_, by decide, by decide, by decide, by decide, by decide, by decide⟩
  intro r input cs p hmem
  have hm := hmatch r input cs p hmem
  rw [matchesExt] at hm
  refine ⟨?_, ?_, ?_, ?_⟩ <;> intro heq <;> rw [heq] at hm <;> exact absurd hm (by decide)

theorem dotted_name_behavior_witness :
    matchesExt "images/photo.v2.jpg" = true ∧
    (pyBasename "images/photo.v2.jpg" ≠ ".jpg" ∧
      pyBasename "images/photo.v2.jpg" ≠ ".jpeg" ∧
      pyBasename "images/photo.v2.jpg" ≠ ".png" ∧
      pyBasename "images/photo.v2.jpg" ≠ ".webp") :=
  ⟨dotted_name_behavior.1 false "images" [.file "photo.v2.jpg"]
      "images/photo.v2.jpg" (by decide),
    dotted_name_behavior.2.1 false "images" [.file "photo.v2.jpg"]
      "images/photo.v2.jpg" (by decide)⟩

theorem data_append (a b : String) : (a ++ b).data = a.data ++ b.data := rfl

theorem dataLength_append (a b : String) :
    (a ++ b).data.length = a.data.length + b.data.length := by
  rw [data_append, List.length_append]

theorem dirPart_append_basename (p : String) : pyDirPart p ++ pyBasename p = p := by
  simp only [pyDirPart, pyBasename]
  cases hf : p.data.reverse.findIdx? (fun d => d = '/') with
  | none =>
    show ("" : String) ++ p = p
    cases p
    rfl
  | some j =>
    show String.mk (p.data.take (p.data.length - j)) ++
        String.mk (p.data.drop (p.data.length - j)) = p
    have hmk : String.mk (p.data.take (p.data.length - j)) ++
        String.mk (p.data.drop (p.data.length - j)) =
        String.mk (p.data.take (p.data.length - j) ++
          p.data.drop (p.data.length - j)) := rfl
    rw [hmk, List.take_append_drop]

theorem stem_append_suffix (n : String) : pyStem n ++ pySuffix n = n := by
  simp only [pyStem, pySuffix]
  cases hf : rfindChar n.data '.' with
  | none =>
    show n ++ ("" : String) = n
    cases n with
    | mk d =>
      show String.mk (d ++ []) = String.mk d
      rw [List.append_nil]
  | some i =>
    dsimp only
    by_cases hc : 0 < i ∧ i < n.data.length - 1
    · rw [if_pos hc, if_pos hc]
      have hmk : String.mk (n.data.take i) ++ String.mk (n.data.drop i) =
          String.mk (n.data.take i ++ n.data.drop i) := rfl
      rw [hmk, List.take_append_drop]
    · rw [if_neg hc, if_neg hc]
      cases n with
      | mk d =>
        show String.mk (d ++ []) = String.mk d
        rw [List.append_nil]

/-- C6: when the input path does not exist or is not a directory, the
run terminates with exit status 1 and the error message on standard
error, and no output file is written. -/
theorem invalid_input_fatal (a : Args) (w : World)
    (hbad : w.inputExists = false ∨ w.inputIsDir = false) :
    mainRun a w =
      { exitCode := 1
        stderrLines := ["ERROR: Input folder not found or not a directory: " ++ a.input]
        stdoutLines := []
        written := none } := by
  rcases hbad with hbad | hbad <;> rw [mainRun, hbad] <;> simp

theorem invalid_input_fatal_witness :
    mainRun argsPlain missingWorld =
      { exitCode := 1
        stderrLines := ["ERROR: Input folder not found or not a directory: " ++ argsPlain.input]
        stdoutLines := []
        written := none } :=
  invalid_input_fatal argsPlain missingWorld (Or.inl rfl)

/-- C9: when the input directory is valid but no file matches the
extension filter, the run emits the warning on standard error, still
writes a document whose sheet holds only the header row, and exits with
status 0. -/
theorem empty_collection_warns (a : Args) (w : World)
    (hex : w.inputExists = true) (hdir : w.inputIsDir = true)
    (hempty : collectFiles a.recursive a.input w.entries = []) :
    (mainRun a w).exitCode = 0 ∧
    (mainRun a w).stderrLines =
      ["WARNING: No supported image files found in: " ++ a.input] ∧
    ∃ p doc, (mainRun a w).written = some (p, doc) ∧
      doc.body.cells = [] ∧ doc.body.imgs = [] ∧ doc.body.heights = [] ∧
      doc.headerA = "Photo" ∧ doc.headerB = "Temporary Name" ∧
      doc.sheetTitle = "Inventory" := by
  have hcond : (!w.inputExists || !w.inputIsDir) = false := by rw [hex, hdir]; rfl
  rw [mainRun, hcond, if_neg Bool.false_ne_true]
  dsimp only
  rw [hempty]
  exact ⟨rfl, rfl, _, _, rfl, rfl, rfl, rfl, rfl, rfl, rfl⟩

theorem empty_collection_warns_witness :
    (mainRun argsPlain emptyWorld).exitCode = 0 ∧
    (mainRun argsPlain emptyWorld).stderrLines =
      ["WARNING: No supported image files found in: " ++ argsPlain.input] ∧
    ∃ p doc, (mainRun argsPlain emptyWorld).written = some (p, doc) ∧
      doc.body.cells = [] ∧ doc.body.imgs = [] ∧ doc.body.heights = [] ∧
      doc.headerA = "Photo" ∧ doc.headerB = "Temporary Name" ∧
      doc.sheetTitle = "Inventory" :=
  empty_collection_warns argsPlain emptyWorld rfl rfl rfl

/-- C7: with the timestamped flag set, the file is written to the path
whose final component is the requested output name's stem, an
underscore, the YYYYMMDD_HHMMSS rendering of the wall-clock time, and
the original extension; the original un-timestamped path is a different
path and is not written. -/
theorem timestamped_output (a : Args) (w : World) (hts : a.timestamped = true)
    (hex : w.inputExists = true) (hdir : w.inputIsDir = true) :
    (∃ doc, (mainRun a w).written = some (resolvedOutPath a w.now, doc)) ∧
    resolvedOutPath a w.now =
      pyWithName a.output
        (pyStem (pyBasename a.output) ++ "_" ++ fmtTS w.now ++
          pySuffix (pyBasename a.output)) ∧
    resolvedOutPath a w.now ≠ a.output := by
  refine ⟨?_, ?_, ?_⟩
  · have hcond : (!w.inputExists || !w.inputIsDir) = false := by rw [hex, hdir]; rfl
    rw [mainRun, hcond, if_neg Bool.false_ne_true]
    exact ⟨_, rfl⟩
  · rw [resolvedOutPath, if_pos hts]
  · rw [resolvedOutPath, if_pos hts]
    intro heq
    have h1 : pyDirPart a.output ++ pyBasename a.output = a.output :=
      dirPart_append_basename a.output
    have h2 : pyStem (pyBasename a.output) ++ pySuffix (pyBasename a.output) =
        pyBasename a.output := stem_append_suffix (pyBasename a.output)
    rw [pyWithName] at heq
    have e1 := congrArg (fun s : String => s.data.length) heq
    have e2 := congrArg (fun s : String => s.data.length) h1
    have e3 := congrArg (fun s : String => s.data.length) h2
    simp only [dataLength_append] at e1 e2 e3
    have hu : ("_" : String).data.length = 1 := rfl
    rw [hu] at e1
    omega

theorem timestamped_output_witness :
    (∃ doc, (mainRun argsStamped emptyWorld).written =
      some (resolvedOutPath argsStamped emptyWorld.now, doc)) ∧
    resolvedOutPath argsStamped emptyWorld.now =
      pyWithName argsStamped.output
        (pyStem (pyBasename argsStamped.output) ++ "_" ++ fmtTS emptyWorld.now ++
          pySuffix (pyBasename argsStamped.output)) ∧
    resolvedOutPath argsStamped emptyWorld.now ≠ argsStamped.output :=
  timestamped_output argsStamped emptyWorld rfl rfl rfl

example : pySuffix ".png" = "" := by decide
example : pySuffix "photo.v2.jpg" = ".jpg" := by decide
example : pyStem "photo.v2.jpg" = "photo.v2" := by decide
example : pyBasename "images/a/b.jpg" = "b.jpg" := by decide
example : pyDirPart "images/a/b.jpg" = "images/a/" := by decide
example : matchesExt "images/A.JPG" = true := by decide
example : matchesExt "images/.png" = false := by decide
example : collectFiles false "images"
    [.file "b.png", .file "a.jpg", .file "notes.txt", .dir "sub" [.file "c.webp"]]
    = ["images/a.jpg", "images/b.png"] := by decide
example : collectFiles true "images"
    [.file "b.png", .dir "sub" [.file "c.webp"]]
    = ["images/b.png", "images/sub/c.webp"] := by decide
example : collectFiles true "images" [.dir "box.jpg" []]
    = ["images/box.jpg"] := by decide
example : fmtTS ⟨2026, 10, 12, 9, 5, 3⟩ = "20261012_090503" := by decide
